import Mathlib

/-!
Verification development for the coregistration core in `arosics/CoReg.py`.

The Python class `COREG` is embedded shallowly: pure numeric fragments become
functions over `ℚ`, the mutable error bookkeeping (`tracked_errors`,
`success`, `x_shift_px`, `y_shift_px`) becomes an explicit `ErrState` record,
and Python exceptions become `Except`.  An `Except.error` value carries the
state as mutated so far together with the raised error, mirroring the fact
that `COREG._handle_error` appends to `tracked_errors` and sets
`success = False` before re-raising.
-/

/-- Error kinds raised by the coregistration core; messages are dropped,
only the kind matters for the claims.  `assertionUnequalProjections` and
`insufficientOverlap` correspond to bare Python `assert` statements. -/
inductive Err where
  | assertionUnequalProjections
  | insufficientOverlap
  | windowTooSmall
  | noMatchFound
  | shiftTooLarge
  deriving DecidableEq

/-- The mutable run state touched by `COREG._handle_error` and
`COREG.calculate_spatial_shifts`: the error log, the ternary success flag
(`none` models Python `None`), and the shift result fields. -/
structure ErrState where
  tracked : List Err
  success : Option Bool
  xShiftPx : Option ℚ
  yShiftPx : Option ℚ
  deriving DecidableEq

/-- The state of a freshly constructed `COREG` object: empty error log,
`success = None`, no shifts. -/
def initState : ErrState := ⟨[], none, none, none⟩

/-- Embedding of `COREG._handle_error` (CoReg.py 313-333): append the error to
`tracked_errors`, set `success = False`, and re-raise unless
`self.ignErr` is set (the `warn`/printing branch has no state effect). -/
def handle_error (ignErr : Bool) (s : ErrState) (e : Err) : Except (ErrState × Err) ErrState :=
  let s1 : ErrState := { s with tracked := s.tracked ++ [e], success := some false }
  if ignErr then Except.ok s1 else Except.error (s1, e)

/-- A run segment in which each listed error occurs in turn and is routed
through `COREG._handle_error`.  Models the occurrence order of the Error Log. -/
def processErrors (ignErr : Bool) (s : ErrState) : List Err → Except (ErrState × Err) ErrState
  | [] => Except.ok s
  | e :: es =>
    match handle_error ignErr s e with
    | Except.error r => Except.error r
    | Except.ok s1 => processErrors ignErr s1 es

/-- Embedding of `COREG._get_image_params` (CoReg.py 404-409).  Projections are
abstracted to natural-number identifiers.  The CRS comparison is a bare Python
`assert`: it raises `AssertionError` without consulting `ignore_errors` and
without touching `tracked_errors` or `success` (the carried state is the
input state, unchanged). -/
def get_image_params (ignErr : Bool) (prjRef prjTgt : ℕ) (s : ErrState) :
    Except (ErrState × Err) ErrState :=
  if prjRef = prjTgt then Except.ok s
  else Except.error (s, Err.assertionUnequalProjections)

/-- Which input raster provides the anchor grid.  -/
inductive Grid where
  | ref
  | shift
  deriving DecidableEq

/-- Embedding of CoReg.py 286:
`self.grid2use = 'ref' if self.shift.xgsd <= self.ref.xgsd else 'shift'`. -/
def grid2use (refXgsd shiftXgsd : ℚ) : Grid :=
  if shiftXgsd ≤ refXgsd then Grid.ref else Grid.shift

/-- Embedding of CoReg.py 749:
`self.imfft_gsd = self.ref.xgsd if self.grid2use == 'ref' else self.shift.xgsd`. -/
def imfft_gsd (refXgsd shiftXgsd : ℚ) : ℚ :=
  if grid2use refXgsd shiftXgsd = Grid.ref then refXgsd else shiftXgsd

/-- Embedding of CoReg.py 420: the pixel area used for the overlap check is
that of the `grid2use` raster. -/
def px_area (refXgsd refYgsd shiftXgsd shiftYgsd : ℚ) : ℚ :=
  if grid2use refXgsd shiftXgsd = Grid.ref then refXgsd * refYgsd else shiftXgsd * shiftYgsd

/-- Embedding of `COREG._get_overlap_properties` (CoReg.py 411-423).  Both
checks are bare `assert` statements (raised regardless of `ignore_errors`,
aborting `__init__` before any shift is computed); the spec labels both
failures `InsufficientOverlap`.  The overlap polygon is abstracted to its
truthiness (non-emptiness) and its area. -/
def get_overlap_properties (overlapNonempty : Bool) (overlapArea : ℚ)
    (refXgsd refYgsd shiftXgsd shiftYgsd : ℚ) : Except Err Unit :=
  if overlapNonempty = false then Except.error Err.insufficientOverlap
  else if overlapArea / px_area refXgsd refYgsd shiftXgsd shiftYgsd > 16 * 16 then Except.ok ()
  else Except.error Err.insufficientOverlap

/-- Embedding of the sub-pixel stage of `COREG.calculate_spatial_shifts`
(CoReg.py 1298-1314): form the total shifts, reject with `ShiftTooLarge`
when `max(|x_total|, |y_total|) > max_shift` (leaving the shift fields
untouched), otherwise set `success = True` and store the totals scaled by
`gsd_factor` (target-pixel units). -/
def subpixel_stage (ignErr : Bool) (maxShift gsdFactor : ℚ)
    (xIntshift yIntshift xSubshift ySubshift : ℚ) (s : ErrState) :
    Except (ErrState × Err) ErrState :=
  let xTotalshift := xIntshift + xSubshift
  let yTotalshift := yIntshift + ySubshift
  if max (abs xTotalshift) (abs yTotalshift) > maxShift then
    handle_error ignErr s Err.shiftTooLarge
  else
    Except.ok { s with success := some true,
                       xShiftPx := some (xTotalshift * gsdFactor),
                       yShiftPx := some (yTotalshift * gsdFactor) }

/-- Embedding of `binarySizes = [2 ** i for i in range(3, 14)]`
(CoReg.py 849): the powers of two from 8 to 8192. -/
def binarySizes : List ℕ := (List.range 11).map (fun i => 2 ^ (i + 3))

/-- Python `max` over a list of naturals (the guarded lists are nonempty and
positive, so a fold from 0 agrees with Python). -/
def list_max (l : List ℕ) : ℕ := l.foldl max 0

/-- Python `min(possibSizes, key=lambda x: abs(x - tgt))` (CoReg.py 854-855):
left fold keeping the first element whose distance to `tgt` is minimal. -/
def closest_to_target (l : List ℕ) (tgt : ℕ) : ℕ :=
  match l with
  | [] => 0
  | x :: xs =>
    xs.foldl (fun (best y : ℕ) =>
      if ((y : ℤ) - tgt).natAbs < ((best : ℤ) - tgt).natAbs then y else best) x

/-- Embedding of `COREG._shrink_winsize_to_binarySize` (CoReg.py 839-858).
Shapes are `(rows, cols)`; the call site passes `target_size = None`. -/
def shrink_winsize_to_binarySize (winShapeYX : ℕ × ℕ) (targetSize : Option (ℕ × ℕ)) :
    Option (ℕ × ℕ) :=
  let possibSizesX := binarySizes.filter (fun i => i ≤ winShapeYX.2)
  let possibSizesY := binarySizes.filter (fun i => i ≤ winShapeYX.1)
  if possibSizesX = [] ∨ possibSizesY = [] then none
  else
    let tgt := targetSize.getD (list_max possibSizesX, list_max possibSizesY)
    some (closest_to_target possibSizesY tgt.2, closest_to_target possibSizesX tgt.1)

/-- The sizing step of `COREG._calc_shifted_cross_power_spectrum`
(CoReg.py 878-879): binary shrinking when `bin_ws` is set, then forcing a
quadratic window by taking the minimum of the two axes. -/
def fft_window_size (binWs forceQuadraticWin : Bool) (shape : ℕ × ℕ) : Option (ℕ × ℕ) :=
  let wsYX := if binWs then shrink_winsize_to_binarySize shape none else some shape
  match wsYX with
  | none => none
  | some (y, x) => if forceQuadraticWin then some (min y x, min y x) else some (y, x)

/-- The guard of `COREG._calc_shifted_cross_power_spectrum` (CoReg.py 881,
947-950): when the chosen window size is `None` or `(0, 0)` the SCPS stays
`None` and `WindowTooSmall` is routed through `_handle_error`; otherwise the
chosen size is reported. -/
def scps_sizing (ignErr binWs forceQuadraticWin : Bool) (shape : ℕ × ℕ) (s : ErrState) :
    Except (ErrState × Err) (ErrState × Option (ℕ × ℕ)) :=
  let wsYX := fft_window_size binWs forceQuadraticWin shape
  if wsYX = none ∨ wsYX = some (0, 0) then
    match handle_error ignErr s Err.windowTooSmall with
    | Except.error r => Except.error r
    | Except.ok s1 => Except.ok (s1, none)
  else Except.ok (s, wsYX)

/-- Largest power of two that is at most `n` (for `n ≥ 1`); the formula the
spec sentence of C4 describes. -/
def largestPow2Le (n : ℕ) : ℕ := 2 ^ Nat.log2 n

/-- An SCPS array: a row-major list of rows of rationals (the magnitudes of
the inverse FFT are real; exact rationals stand in for floats). -/
abbrev Mat := List (List ℚ)

/-- Row count, `scps.shape[0]`. -/
def Mat.rows (m : Mat) : ℕ := m.length

/-- Column count, `scps.shape[1]` (taken from the first row). -/
def Mat.cols (m : Mat) : ℕ := (m.headD []).length

/-- Entry access `scps[r, c]` (0 outside bounds; theorems stay in bounds). -/
def Mat.get (m : Mat) (r c : ℕ) : ℚ := (m.getD r []).getD c 0

/-- Rectangularity: every row has the common column count. -/
def Mat.Rect (m : Mat) : Prop := ∀ row ∈ m, row.length = m.cols

instance (m : Mat) : Decidable m.Rect := by
  unfold Mat.Rect
  infer_instance

/-- All entries nonnegative — true of every actual SCPS, which is an array of
complex magnitudes. -/
def Mat.Nonneg (m : Mat) : Prop := ∀ row ∈ m, ∀ x ∈ row, 0 ≤ x

instance (m : Mat) : Decidable m.Nonneg := by
  unfold Mat.Nonneg
  infer_instance

/-- `np.max(scps)`: maximum over all entries (left fold over the flat array). -/
def np_max (m : Mat) : ℚ :=
  match m.flatten with
  | [] => 0
  | x :: xs => xs.foldl max x

/-- One side maximum as built by `COREG._find_side_maximum` (CoReg.py
1019-1024); the textual `side` key is dropped, `direction_factor` kept. -/
structure SideMax where
  value : ℚ
  directionFactor : ℚ
  deriving DecidableEq

/-- Embedding of `COREG._find_side_maximum` (CoReg.py 1009-1032): read the row
and column profiles through the central peak `(rows // 2, cols // 2)` and pick
the larger neighbor on each axis with its signed direction. -/
def find_side_maximum (scps : Mat) : SideMax × SideMax :=
  let peakR := scps.rows / 2
  let peakC := scps.cols / 2
  let profileX := scps.getD peakR []
  let profileY := scps.map (fun row => row.getD peakC 0)
  let smLeft := profileX.getD (peakC - 1) 0
  let smRight := profileX.getD (peakC + 1) 0
  let smAbove := profileY.getD (peakR - 1) 0
  let smBelow := profileY.getD (peakR + 1) 0
  (⟨max smLeft smRight, if smLeft > smRight then -1 else 1⟩,
   ⟨max smAbove smBelow, if smAbove > smBelow then -1 else 1⟩)

/-- Embedding of `COREG._calc_subpixel_shifts` (CoReg.py 1091-1095). -/
def calc_subpixel_shifts (scps : Mat) : ℚ × ℚ :=
  let sm := find_side_maximum scps
  ((sm.1.directionFactor * sm.1.value) / (np_max scps + sm.1.value),
   (sm.2.directionFactor * sm.2.value) / (np_max scps + sm.2.value))

/-- `np.argmax` over a flat list: index of the first occurrence of the
maximum. -/
def argmax_flat (l : List ℚ) : ℕ :=
  (l.enum.foldl (fun best p => if p.2 > best.2 then p else best) (0, l.headD 0)).1

/-- Embedding of `COREG._get_peakpos` (CoReg.py 955-963): `np.argmax` on the
flattened SCPS, unraveled row-major. -/
def get_peakpos (m : Mat) : ℕ × ℕ :=
  let idx := argmax_flat m.flatten
  (idx / m.cols, idx % m.cols)

/-- The slice `scps[pR-1:pR+2, pC-1:pC+2]` for an interior peak
(`1 ≤ pR`, `1 ≤ pC`; Python's negative-index slicing at a border peak is not
modelled — the theorems assume an interior peak). -/
def block3x3 (m : Mat) (pR pC : ℕ) : Mat :=
  ((m.drop (pR - 1)).take 3).map (fun row => (row.drop (pC - 1)).take 3)

/-- `np.mean` over a flat list of rationals. -/
def mean_q (l : List ℚ) : ℚ := l.sum / l.length

/-- Population variance (`np.std` squared, `ddof = 0`). -/
def var_q (l : List ℚ) : ℚ := ((l.map (fun x => (x - mean_q l) ^ 2)).sum) / l.length

/-- The slice assignment `scps[pR-1:pR+2, pC-1:pC+2] = -9999` on one row,
with `c` the running column index. -/
def overwrite_row (pC : ℕ) : ℕ → List ℚ → List ℚ
  | _, [] => []
  | c, x :: xs =>
    (if pC - 1 ≤ c ∧ c ≤ pC + 1 then (-9999 : ℚ) else x) :: overwrite_row pC (c + 1) xs

/-- The slice assignment `scps[pR-1:pR+2, pC-1:pC+2] = -9999` (CoReg.py 1052),
with `r` the running row index; faithful for interior peaks. -/
def overwrite_block (pR pC : ℕ) : ℕ → Mat → Mat
  | _, [] => []
  | r, row :: rest =>
    (if pR - 1 ≤ r ∧ r ≤ pR + 1 then overwrite_row pC 0 row else row) ::
      overwrite_block pR pC (r + 1) rest

/-- `np.ma.masked_equal(scps_masked, -9999)` after the overwrite: the entries
the subsequent mean/std see. -/
def masked_rest (m : Mat) : List ℚ :=
  ((overwrite_block (get_peakpos m).1 (get_peakpos m).2 0 m).flatten).filter
    (fun x => x ≠ -9999)

/-- `power_at_peak` (CoReg.py 1048): mean over the 3×3 block at the peak. -/
def power_at_peak (m : Mat) : ℚ :=
  mean_q (block3x3 m (get_peakpos m).1 (get_peakpos m).2).flatten

/-- `np.std` over the masked rest, as a real number. -/
noncomputable def std_r (l : List ℚ) : ℝ := Real.sqrt ((var_q l : ℚ) : ℝ)

/-- `power_without_peak` (CoReg.py 1054): mean of the masked array plus twice
its standard deviation. -/
noncomputable def power_without_peak (m : Mat) : ℝ :=
  ((mean_q (masked_rest m) : ℚ) : ℝ) + 2 * std_r (masked_rest m)

/-- Embedding of the value computed by `COREG._calc_shift_reliability`
(CoReg.py 1039-1063): the clipped confidence percentage. -/
noncomputable def calc_shift_reliability (m : Mat) : ℝ :=
  let confid : ℝ := 100 - (power_without_peak m / ((power_at_peak m : ℚ) : ℝ)) * 100
  if confid > 100 then 100 else if confid < 0 then 0 else confid

/-- The caller's SCPS array after `COREG._calc_shift_reliability` returns:
`scps_masked = scps` aliases the numpy array, so the in-place slice
assignment at CoReg.py 1052 mutates the caller's array. -/
def scps_after_reliability (m : Mat) : Mat :=
  overwrite_block (get_peakpos m).1 (get_peakpos m).2 0 m

/-- The cells of the SCPS outside the 3×3 peak block, one row, following the
spec's words for C6 (`c` is the running column index). -/
def spec_rest_row (pC : ℕ) : ℕ → List ℚ → List ℚ
  | _, [] => []
  | c, x :: xs =>
    (if pC - 1 ≤ c ∧ c ≤ pC + 1 then [] else [x]) ++ spec_rest_row pC (c + 1) xs

/-- The cells of the SCPS outside the 3×3 peak block, following the spec's
words for C6 (`r` is the running row index). -/
def spec_rest (pR pC : ℕ) : ℕ → Mat → List ℚ
  | _, [] => []
  | r, row :: rest =>
    (if pR - 1 ≤ r ∧ r ≤ pR + 1 then spec_rest_row pC 0 row else row) ++
      spec_rest pR pC (r + 1) rest

/-- Reliability as the spec sentence of C6 words it:
`clip(100 − 100·Q/P, 0, 100)` with `P` the 3×3 block mean at the peak and
`Q = mean(rest) + 2·std(rest)` over the remaining cells. -/
noncomputable def reliability_spec (m : Mat) : ℝ :=
  let rest := spec_rest (get_peakpos m).1 (get_peakpos m).2 0 m
  let pv : ℝ := ((power_at_peak m : ℚ) : ℝ)
  let qv : ℝ := ((mean_q rest : ℚ) : ℝ) + 2 * std_r rest
  max 0 (min 100 (100 - 100 * qv / pv))

/-- Result of one `COREG._validate_integer_shifts` call (CoReg.py 1065-1089),
abstracted over the SCPS recomputation: the oracle maps the requested
deshift to the integer shifts read off the recomputed SCPS, or `none` when
that SCPS is missing or smaller than 3×3.  The returned pair is
`(valid?, (x_val_shift, y_val_shift))` with `none` for Python's
`(None, None)`. -/
def validate_integer_shifts (oracle : ℤ → ℤ → Option (ℤ × ℤ)) (x y : ℤ) :
    Bool × Option (ℤ × ℤ) :=
  if x = 0 ∧ y = 0 then (true, some (0, 0))
  else
    match oracle x y with
    | none => (false, none)
    | some (x2, y2) =>
      if x2 = 0 ∧ y2 = 0 then (true, some (0, 0)) else (false, some (x2, y2))

/-- How the integer-shift validation of `COREG.calculate_spatial_shifts`
ends. -/
inductive LoopOutcome where
  | matchValid
  | noMatchFound
  | windowTooSmall
  deriving DecidableEq

/-- Outcome of the validation stage plus the number of
`_validate_integer_shifts` calls that consulted the SCPS oracle. -/
structure LoopResult where
  outcome : LoopOutcome
  oracleCalls : ℕ
  deriving DecidableEq

/-- Embedding of the `while valid_invalid != 'valid'` loop of
`COREG.calculate_spatial_shifts` (CoReg.py 1274-1296).  `countIter` holds
Python's `count_iter` at the loop head, `cur` the current
`(x_val_shift, y_val_shift)`.  The loop is entered only with an invalid
result; `count_iter` is incremented first and `NoMatchFound` raised once it
exceeds `max_iter`. -/
def validation_loop (oracle : ℤ → ℤ → Option (ℤ × ℤ)) (maxIter countIter : ℕ)
    (cur : Option (ℤ × ℤ)) (calls : ℕ) : LoopResult :=
  if h : countIter + 1 > maxIter then ⟨LoopOutcome.noMatchFound, calls⟩
  else
    match cur with
    | none => ⟨LoopOutcome.windowTooSmall, calls⟩
    | some (xv, yv) =>
      match validate_integer_shifts oracle xv yv with
      | (true, _) => ⟨LoopOutcome.matchValid, calls + 1⟩
      | (false, next) => validation_loop oracle maxIter (countIter + 1) next (calls + 1)
  termination_by maxIter - countIter
  decreasing_by simp_wf; omega

/-- The integer-shift stage of `COREG.calculate_spatial_shifts`
(CoReg.py 1264-1296): zero integer shifts are accepted outright, otherwise
`_validate_integer_shifts` runs once and, while invalid, the bounded loop
takes over. -/
def run_integer_shift_stage (oracle : ℤ → ℤ → Option (ℤ × ℤ)) (maxIter : ℕ)
    (xIntshift yIntshift : ℤ) : LoopResult :=
  if xIntshift = 0 ∧ yIntshift = 0 then ⟨LoopOutcome.matchValid, 0⟩
  else
    match validate_integer_shifts oracle xIntshift yIntshift with
    | (true, _) => ⟨LoopOutcome.matchValid, 1⟩
    | (false, next) => validation_loop oracle maxIter 1 next 1

/-- A nested shift dictionary (`corrected_shifts_px` / `corrected_shifts_map`)
of `coreg_info`. -/
structure ShiftsXY where
  x : ℚ
  y : ℚ
  deriving DecidableEq

/-- The heap holding the nested dictionaries; addresses are naturals. -/
abbrev Heap : Type := ℕ → ShiftsXY

/-- Update one heap cell. -/
def heap_update (h : Heap) (a : ℕ) (v : ShiftsXY) : Heap :=
  fun b => if b = a then v else h b

/-- The cached `coreg_info` dictionary (CoReg.py 1360-1381): the two nested
shift dictionaries are held by reference (heap address); the map-info
entries relevant to `_get_inverted_coreg_info` are held by value. -/
structure CoregInfoDict where
  pxAddr : ℕ
  mapAddr : ℕ
  originalMapInfo : ℚ × ℚ
  updatedMapInfo : Option (ℚ × ℚ)
  deriving DecidableEq

/-- Python's `copy.copy` on a dict: a shallow copy, sharing the nested
dictionaries (the heap addresses). -/
def shallow_copy (d : CoregInfoDict) : CoregInfoDict := d

/-- Reading the shift entries of a `coreg_info` dict through the heap. -/
def read_corrected_shifts (d : CoregInfoDict) (h : Heap) : ShiftsXY × ShiftsXY :=
  (h d.pxAddr, h d.mapAddr)

/-- Embedding of `COREG._get_inverted_coreg_info` (CoReg.py 1383-1403):
shallow-copy the cached dict, negate the nested shift entries in place
(four `*= -1` assignments), then rebind the top-level map-info entries of
the copy only. -/
def get_inverted_coreg_info (cache : CoregInfoDict) (h : Heap)
    (xShiftMap yShiftMap : ℚ) (refMapInfo : ℚ × ℚ) : CoregInfoDict × Heap :=
  let inv := shallow_copy cache
  let h1 := heap_update h inv.pxAddr { (h inv.pxAddr) with x := -(h inv.pxAddr).x }
  let h2 := heap_update h1 inv.pxAddr { (h1 inv.pxAddr) with y := -(h1 inv.pxAddr).y }
  let h3 := heap_update h2 inv.mapAddr { (h2 inv.mapAddr) with x := -(h2 inv.mapAddr).x }
  let h4 := heap_update h3 inv.mapAddr { (h3 inv.mapAddr) with y := -(h3 inv.mapAddr).y }
  let inv2 := { inv with originalMapInfo := refMapInfo }
  let newUpdated := some (inv2.originalMapInfo.1 - xShiftMap, inv2.originalMapInfo.2 - yShiftMap)
  let inv3 :=
    if inv2.updatedMapInfo.isSome then { inv2 with updatedMapInfo := newUpdated } else inv2
  (inv3, h4)

/-- C1: if the total shift exceeds `max_shift` in reference-pixel units the
sub-pixel stage fails with `ShiftTooLarge` (raised when `ignore_errors` is
false, logged with `success = False` when true) and the shift fields stay
`None`; conversely any state the stage returns with `success = True` carries
a total shift bounded by `max_shift`. -/
theorem subpixel_stage_shift_bound (ignErr : Bool) (maxShift gsdFactor : ℚ)
    (xi yi xs ys : ℚ) (s : ErrState)
    (hx : s.xShiftPx = none) (hy : s.yShiftPx = none) :
    (max (abs (xi + xs)) (abs (yi + ys)) > maxShift →
      subpixel_stage ignErr maxShift gsdFactor xi yi xs ys s =
        (if ignErr then
          Except.ok ⟨s.tracked ++ [Err.shiftTooLarge], some false, none, none⟩
        else
          Except.error (⟨s.tracked ++ [Err.shiftTooLarge], some false, none, none⟩,
            Err.shiftTooLarge)))
    ∧ (∀ s2 : ErrState,
        subpixel_stage ignErr maxShift gsdFactor xi yi xs ys s = Except.ok s2 →
        s2.success = some true →
        max (abs (xi + xs)) (abs (yi + ys)) ≤ maxShift ∧
        s2.xShiftPx = some ((xi + xs) * gsdFactor) ∧
        s2.yShiftPx = some ((yi + ys) * gsdFactor)) := by
  obtain ⟨tr, su, xp, yp⟩ := s
  have hx2 : xp = none := hx
  have hy2 : yp = none := hy
  subst hx2
  subst hy2
  constructor
  · intro hgt
    simp only [subpixel_stage, handle_error, if_pos hgt]
  · intro s2 hok hsucc
    by_cases hgt : max (abs (xi + xs)) (abs (yi + ys)) > maxShift
    · exfalso
      simp only [subpixel_stage, handle_error, if_pos hgt] at hok
      cases ignErr
      · simp at hok
      · simp only [if_pos] at hok
        injection hok with h
        rw [← h] at hsucc
        simp at hsucc
    · simp only [subpixel_stage, if_neg hgt] at hok
      injection hok with h
      subst h
      exact ⟨le_of_not_lt hgt, rfl, rfl⟩

/-- Witness for C1 at a concrete oversized shift. -/
theorem subpixel_stage_shift_bound_witness :
    subpixel_stage false 5 1 7 0 0 0 initState =
      Except.error (⟨[Err.shiftTooLarge], some false, none, none⟩, Err.shiftTooLarge) := by
  have h := subpixel_stage_shift_bound false 5 1 7 0 0 0 initState rfl rfl
  have := h.1 (by norm_num)
  simpa [initState] using this

/-- C2 (counterexample): the CRS check of `_get_image_params` is a bare
`assert`, so with `ignore_errors = True` an `UnequalProjections` failure is
still raised to the caller and is neither appended to `tracked_errors` nor
reflected in `success` — contradicting the claim that with `ignore_errors`
every error is appended to the log with `success = False` instead of being
raised. -/
theorem assert_error_bypasses_error_log :
    get_image_params true 0 1 initState =
      Except.error (initState, Err.assertionUnequalProjections) ∧
    initState.tracked = [] ∧ initState.success = none := by
  exact ⟨rfl, rfl, rfl⟩

/-- C2 (amended): for errors routed through `COREG._handle_error`: with
`ignore_errors = False` the first error is appended and raised to the caller
with `success = False`; with `ignore_errors = True` every error is appended
in occurrence order, `success` becomes `False`, and the shift fields are
left untouched (they stay `None` when they were `None`). -/
theorem handled_errors_follow_ignore_errors (s : ErrState) (es : List Err) :
    (∀ e rest, es = e :: rest →
      processErrors false s es =
        Except.error ({ s with tracked := s.tracked ++ [e], success := some false }, e)) ∧
    processErrors true s es =
      Except.ok { s with tracked := s.tracked ++ es,
                         success := if es.isEmpty then s.success else some false } := by
  constructor
  · rintro e rest rfl
    simp [processErrors, handle_error]
  · induction es generalizing s with
    | nil => simp [processErrors]
    | cons e es ih =>
      simp only [processErrors, handle_error, if_pos]
      rw [ih]
      obtain ⟨tr, su, xp, yp⟩ := s
      cases es <;> simp

/-- Witness for C2 (amended) at concrete error lists. -/
theorem handled_errors_follow_ignore_errors_witness :
    processErrors false initState [Err.noMatchFound] =
      Except.error (⟨[Err.noMatchFound], some false, none, none⟩, Err.noMatchFound) ∧
    processErrors true initState [Err.noMatchFound, Err.shiftTooLarge] =
      Except.ok ⟨[Err.noMatchFound, Err.shiftTooLarge], some false, none, none⟩ := by
  constructor
  · exact (handled_errors_follow_ignore_errors initState [Err.noMatchFound]).1
      Err.noMatchFound [] rfl
  · exact (handled_errors_follow_ignore_errors initState
      [Err.noMatchFound, Err.shiftTooLarge]).2

/-- C3 (counterexample): with reference pixel size 1 and target pixel size 2
the reference is the higher-resolution input, yet `grid2use` picks the target
grid and `imfft_gsd` is 2, the larger pixel size — contradicting the claim
that the anchor grid is that of the raster with the smaller pixel size. -/
theorem grid2use_prefers_coarser_counterexample :
    (1 : ℚ) < 2 ∧ grid2use 1 2 = Grid.shift ∧ imfft_gsd 1 2 = 2 := by
  refine ⟨by norm_num, ?_, ?_⟩ <;> simp [grid2use, imfft_gsd] <;> norm_num

/-- C3 (amended): for unequal pixel sizes, `grid2use` is the grid of the
raster with the LARGER x pixel size (the lower-resolution input), and
`imfft_gsd` equals that larger pixel size. -/
theorem grid2use_is_lower_resolution (r s : ℚ) (h : r ≠ s) :
    grid2use r s = (if r < s then Grid.shift else Grid.ref) ∧
    imfft_gsd r s = max r s := by
  unfold imfft_gsd grid2use
  by_cases hle : s ≤ r
  · have hnlt : ¬ r < s := not_lt.mpr hle
    simp [hle, hnlt, max_eq_left hle]
  · have hlt : r < s := lt_of_not_le hle
    simp [hle, hlt, max_eq_right (le_of_lt hlt)]

/-- Witness for C3 (amended) at pixel sizes 2 (reference) and 1 (target). -/
theorem grid2use_is_lower_resolution_witness :
    grid2use 2 1 = Grid.ref ∧ imfft_gsd 2 1 = 2 := by
  have h := grid2use_is_lower_resolution 2 1 (by norm_num)
  constructor
  · rw [h.1]
    norm_num
  · rw [h.2]
    exact max_eq_left (by norm_num)

/-- C8: when the overlap polygon exists but covers at most 16·16 = 256 pixels
of the `grid2use` raster (`overlap_area / pixel_area ≤ 256`), the overlap
check fails with `InsufficientOverlap`; the failure is an assertion raised
from `__init__`, so the run aborts before any shift is computed. -/
theorem overlap_bound_fails_insufficientOverlap (area r1 r2 s1 s2 : ℚ)
    (h : area / px_area r1 r2 s1 s2 ≤ 256) :
    get_overlap_properties true area r1 r2 s1 s2 = Except.error Err.insufficientOverlap := by
  have h2 : ¬ (area / px_area r1 r2 s1 s2 > 16 * 16) := by
    rw [show ((16 * 16 : ℚ)) = 256 by norm_num]
    exact not_lt.mpr h
  simp [get_overlap_properties, h2]

/-- Witness for C8 with a 100-pixel overlap on unit grids. -/
theorem overlap_bound_fails_insufficientOverlap_witness :
    get_overlap_properties true 100 1 1 1 1 = Except.error Err.insufficientOverlap := by
  exact overlap_bound_fails_insufficientOverlap 100 1 1 1 1
    (by norm_num [px_area, grid2use])

/-- Helper: the loop exits with `NoMatchFound` once `count_iter` would pass
`max_iter`. -/
theorem validation_loop_stop (oracle : ℤ → ℤ → Option (ℤ × ℤ))
    (maxIter countIter calls : ℕ) (cur : Option (ℤ × ℤ))
    (hgt : countIter + 1 > maxIter) :
    validation_loop oracle maxIter countIter cur calls = ⟨LoopOutcome.noMatchFound, calls⟩ := by
  rw [validation_loop.eq_def, dif_pos hgt]

/-- Helper: a `(None, None)` validation result aborts the loop. -/
theorem validation_loop_none_step (oracle : ℤ → ℤ → Option (ℤ × ℤ))
    (maxIter countIter calls : ℕ) (hgt : ¬(countIter + 1 > maxIter)) :
    validation_loop oracle maxIter countIter none calls =
      ⟨LoopOutcome.windowTooSmall, calls⟩ := by
  rw [validation_loop.eq_def, dif_neg hgt]

/-- Helper: a pending shift is revalidated through `_validate_integer_shifts`
when the iteration budget allows. -/
theorem validation_loop_some_step (oracle : ℤ → ℤ → Option (ℤ × ℤ))
    (maxIter countIter calls : ℕ) (xv yv : ℤ) (hgt : ¬(countIter + 1 > maxIter)) :
    validation_loop oracle maxIter countIter (some (xv, yv)) calls =
      (match validate_integer_shifts oracle xv yv with
       | (true, _) => ⟨LoopOutcome.matchValid, calls + 1⟩
       | (false, next) => validation_loop oracle maxIter (countIter + 1) next (calls + 1)) := by
  rw [validation_loop.eq_def, dif_neg hgt]

/-- Helper: the loop makes at most `max_iter` oracle calls in total, counting
the initial `_validate_integer_shifts` call (`calls = count_iter` is the
loop invariant). -/
theorem validation_loop_calls_le (oracle : ℤ → ℤ → Option (ℤ × ℤ)) (maxIter : ℕ) :
    ∀ n countIter cur calls, maxIter + 1 - countIter ≤ n → calls = countIter →
      countIter ≤ maxIter →
      (validation_loop oracle maxIter countIter cur calls).oracleCalls ≤ maxIter := by
  intro n
  induction n with
  | zero =>
    intro countIter cur calls hn _ hle
    omega
  | succ n ih =>
    intro countIter cur calls hn hcalls hle
    by_cases hgt : countIter + 1 > maxIter
    · rw [validation_loop_stop oracle maxIter countIter calls cur hgt]
      show calls ≤ maxIter
      omega
    · cases cur with
      | none =>
        rw [validation_loop_none_step oracle maxIter countIter calls hgt]
        show calls ≤ maxIter
        omega
      | some p =>
        obtain ⟨xv, yv⟩ := p
        rw [validation_loop_some_step oracle maxIter countIter calls xv yv hgt]
        rcases hv : validate_integer_shifts oracle xv yv with ⟨b, next⟩
        cases b
        · show (validation_loop oracle maxIter (countIter + 1) next (calls + 1)).oracleCalls ≤
            maxIter
          exact ih (countIter + 1) next (calls + 1) (by omega) (by omega) (by omega)
        · show calls + 1 ≤ maxIter
          omega

/-- Helper: if the oracle always reports a nonzero integer shift, the loop
ends in `NoMatchFound`. -/
theorem validation_loop_no_match (oracle : ℤ → ℤ → Option (ℤ × ℤ)) (maxIter : ℕ)
    (hO : ∀ x y, ∃ x2 y2, oracle x y = some (x2, y2) ∧ ¬(x2 = 0 ∧ y2 = 0)) :
    ∀ n countIter xv yv calls, maxIter + 1 - countIter ≤ n → ¬(xv = 0 ∧ yv = 0) →
      (validation_loop oracle maxIter countIter (some (xv, yv)) calls).outcome =
        LoopOutcome.noMatchFound := by
  intro n
  induction n with
  | zero =>
    intro countIter xv yv calls hn hxy
    rw [validation_loop_stop oracle maxIter countIter calls (some (xv, yv)) (by omega)]
  | succ n ih =>
    intro countIter xv yv calls hn hxy
    by_cases hgt : countIter + 1 > maxIter
    · rw [validation_loop_stop oracle maxIter countIter calls (some (xv, yv)) hgt]
    · obtain ⟨x2, y2, hor, hnz⟩ := hO xv yv
      have hv : validate_integer_shifts oracle xv yv = (false, some (x2, y2)) := by
        simp only [validate_integer_shifts, if_neg hxy, hor, if_neg hnz]
      rw [validation_loop_some_step oracle maxIter countIter calls xv yv hgt, hv]
      show (validation_loop oracle maxIter (countIter + 1) (some (x2, y2))
        (calls + 1)).outcome = LoopOutcome.noMatchFound
      exact ih (countIter + 1) x2 y2 (calls + 1) (by omega) hnz

/-- C7: for `max_iter ≥ 1` the integer-shift validation stage consults the
SCPS oracle at most `max_iter` times, and when every recomputed SCPS still
reports a nonzero integer shift the stage ends with `NoMatchFound` instead
of looping. -/
theorem validation_iteration_bound (oracle : ℤ → ℤ → Option (ℤ × ℤ)) (maxIter : ℕ)
    (xi yi : ℤ) (h1 : 1 ≤ maxIter) :
    (run_integer_shift_stage oracle maxIter xi yi).oracleCalls ≤ maxIter ∧
    ((∀ x y, ∃ x2 y2, oracle x y = some (x2, y2) ∧ ¬(x2 = 0 ∧ y2 = 0)) →
      ¬(xi = 0 ∧ yi = 0) →
      (run_integer_shift_stage oracle maxIter xi yi).outcome =
        LoopOutcome.noMatchFound) := by
  constructor
  · unfold run_integer_shift_stage
    by_cases hz : xi = 0 ∧ yi = 0
    · rw [if_pos hz]
      exact Nat.zero_le maxIter
    · rw [if_neg hz]
      rcases hv : validate_integer_shifts oracle xi yi with ⟨b, next⟩
      cases b
      · show (validation_loop oracle maxIter 1 next 1).oracleCalls ≤ maxIter
        exact validation_loop_calls_le oracle maxIter maxIter 1 next 1 (by omega) rfl h1
      · show 1 ≤ maxIter
        exact h1
  · intro hO hz
    obtain ⟨x2, y2, hor, hnz⟩ := hO xi yi
    have hv : validate_integer_shifts oracle xi yi = (false, some (x2, y2)) := by
      simp only [validate_integer_shifts, if_neg hz, hor, if_neg hnz]
    unfold run_integer_shift_stage
    rw [if_neg hz, hv]
    show (validation_loop oracle maxIter 1 (some (x2, y2)) 1).outcome =
      LoopOutcome.noMatchFound
    exact validation_loop_no_match oracle maxIter hO maxIter 1 x2 y2 1 (by omega) hnz

/-- Witness for C7: a stuck oracle with `max_iter = 2` makes at most 2 calls
and ends in `NoMatchFound`. -/
theorem validation_iteration_bound_witness :
    (run_integer_shift_stage (fun _ _ => some (1, 1)) 2 1 0).oracleCalls ≤ 2 ∧
    (run_integer_shift_stage (fun _ _ => some (1, 1)) 2 1 0).outcome =
      LoopOutcome.noMatchFound := by
  have h := validation_iteration_bound (fun _ _ => some (1, 1)) 2 1 0 (by norm_num)
  exact ⟨h.1, h.2 (fun x y => ⟨1, 1, rfl, by decide⟩) (by decide)⟩

/-- Helper: the initial value bounds a `max` fold from below. -/
theorem foldl_max_le_init (l : List ℕ) : ∀ a, a ≤ l.foldl max a := by
  induction l with
  | nil => intro a; exact le_refl a
  | cons x xs ih => intro a; exact le_trans (le_max_left a x) (ih (max a x))

/-- Helper: every member bounds a `max` fold from below. -/
theorem foldl_max_mem_le (l : List ℕ) : ∀ a y, y ∈ l → y ≤ l.foldl max a := by
  induction l with
  | nil =>
    intro a y hy
    cases hy
  | cons x xs ih =>
    intro a y hy
    rcases List.mem_cons.mp hy with h1 | h2
    · subst h1
      exact le_trans (le_max_right a y) (foldl_max_le_init xs (max a y))
    · exact ih (max a x) y h2

/-- Helper: a `max` fold returns a member or its initial value. -/
theorem foldl_max_mem_or (l : List ℕ) : ∀ a, l.foldl max a ∈ l ∨ l.foldl max a = a := by
  induction l with
  | nil => intro a; exact Or.inr rfl
  | cons x xs ih =>
    intro a
    rw [List.foldl_cons]
    rcases ih (max a x) with h | h
    · exact Or.inl (List.mem_cons_of_mem x h)
    · rw [h]
      rcases max_choice a x with h2 | h2
      · exact Or.inr h2
      · rw [h2]
        exact Or.inl (List.mem_cons_self x xs)

/-- Helper: Python's `min(..., key=abs distance to tgt)` fold returns `tgt`
itself whenever `tgt` is a member that dominates the list. -/
theorem closest_fold_eq_tgt (tgt : ℕ) :
    ∀ (xs : List ℕ) (best : ℕ), best ≤ tgt → (∀ y ∈ xs, y ≤ tgt) →
      (tgt ∈ xs ∨ best = tgt) →
      xs.foldl (fun (best y : ℕ) =>
        if ((y : ℤ) - tgt).natAbs < ((best : ℤ) - tgt).natAbs then y else best) best = tgt := by
  intro xs
  induction xs with
  | nil =>
    intro best _ _ hmem
    rcases hmem with h | h
    · cases h
    · exact h
  | cons y ys ih =>
    intro best hb hall hmem
    rw [List.foldl_cons]
    have hy_le : y ≤ tgt := hall y (List.mem_cons_self y ys)
    have hall2 : ∀ z ∈ ys, z ≤ tgt := fun z hz => hall z (List.mem_cons_of_mem y hz)
    by_cases hcond : ((y : ℤ) - tgt).natAbs < ((best : ℤ) - tgt).natAbs
    · rw [if_pos hcond]
      rcases hmem with hmem | hbt
      · rcases List.mem_cons.mp hmem with hy | hys
        · exact ih y hy_le hall2 (Or.inr hy.symm)
        · exact ih y hy_le hall2 (Or.inl hys)
      · exfalso
        omega
    · rw [if_neg hcond]
      rcases hmem with hmem | hbt
      · rcases List.mem_cons.mp hmem with hy | hys
        · have hbest : best = tgt := by omega
          exact ih best hb hall2 (Or.inr hbest)
        · exact ih best hb hall2 (Or.inl hys)
      · exact ih best hb hall2 (Or.inr hbt)

/-- Helper: `closest_to_target` applied to the list's own maximum returns
that maximum. -/
theorem closest_to_target_max (l : List ℕ) (tgt : ℕ) (hmem : tgt ∈ l)
    (hall : ∀ y ∈ l, y ≤ tgt) : closest_to_target l tgt = tgt := by
  cases l with
  | nil => cases hmem
  | cons x xs =>
    simp only [closest_to_target]
    apply closest_fold_eq_tgt tgt xs x (hall x (List.mem_cons_self x xs))
      (fun z hz => hall z (List.mem_cons_of_mem x hz))
    rcases List.mem_cons.mp hmem with h | h
    · exact Or.inr h.symm
    · exact Or.inl h

/-- Helper: for `8 ≤ n` the maximum of `binarySizes` filtered to `≤ n` is a
table entry, is `≤ n`, and dominates every table entry that is `≤ n`. -/
theorem list_max_filter_spec (n : ℕ) (hn : 8 ≤ n) :
    list_max (binarySizes.filter (fun i => i ≤ n)) ∈ binarySizes.filter (fun i => i ≤ n) ∧
    list_max (binarySizes.filter (fun i => i ≤ n)) ≤ n ∧
    (∀ b ∈ binarySizes, b ≤ n → b ≤ list_max (binarySizes.filter (fun i => i ≤ n))) ∧
    list_max (binarySizes.filter (fun i => i ≤ n)) ∈ binarySizes := by
  have h8bin : (8 : ℕ) ∈ binarySizes := by decide
  have h8mem : (8 : ℕ) ∈ binarySizes.filter (fun i => i ≤ n) := by
    rw [List.mem_filter]
    exact ⟨h8bin, by simpa using hn⟩
  have h8le := foldl_max_mem_le (binarySizes.filter (fun i => i ≤ n)) 0 8 h8mem
  have hmem : list_max (binarySizes.filter (fun i => i ≤ n)) ∈
      binarySizes.filter (fun i => i ≤ n) := by
    rcases foldl_max_mem_or (binarySizes.filter (fun i => i ≤ n)) 0 with h | h
    · exact h
    · exfalso
      omega
  have hpair := List.mem_filter.mp hmem
  refine ⟨hmem, by simpa using hpair.2, ?_, hpair.1⟩
  intro b hb hbn
  exact foldl_max_mem_le (binarySizes.filter (fun i => i ≤ n)) 0 b
    (List.mem_filter.mpr ⟨hb, by simpa using hbn⟩)

/-- Helper: for axes of length at least 8 the binary shrink returns the
filtered maxima (the `closest to target` step is the identity because the
target is the maximum itself). -/
theorem shrink_winsize_eq (r c : ℕ) (hr : 8 ≤ r) (hc : 8 ≤ c) :
    shrink_winsize_to_binarySize (r, c) none =
      some (list_max (binarySizes.filter (fun i => i ≤ r)),
            list_max (binarySizes.filter (fun i => i ≤ c))) := by
  have hrspec := list_max_filter_spec r hr
  have hcspec := list_max_filter_spec c hc
  have hrne : binarySizes.filter (fun i => i ≤ r) ≠ [] := List.ne_nil_of_mem hrspec.1
  have hcne : binarySizes.filter (fun i => i ≤ c) ≠ [] := List.ne_nil_of_mem hcspec.1
  simp only [shrink_winsize_to_binarySize]
  rw [if_neg (by push_neg; exact ⟨hcne, hrne⟩)]
  rw [Option.getD_none]
  rw [closest_to_target_max _ _ hrspec.1
      (fun y hy => foldl_max_mem_le (binarySizes.filter (fun i => i ≤ r)) 0 y hy),
    closest_to_target_max _ _ hcspec.1
      (fun y hy => foldl_max_mem_le (binarySizes.filter (fun i => i ≤ c)) 0 y hy)]

/-- Helper: an axis shorter than 8 empties its candidate list, so the binary
shrink returns `None`. -/
theorem shrink_winsize_none (r c : ℕ) (h : r < 8 ∨ c < 8) :
    shrink_winsize_to_binarySize (r, c) none = none := by
  have h8 : ∀ a ∈ binarySizes, 8 ≤ a := by decide
  simp only [shrink_winsize_to_binarySize]
  rw [if_pos]
  rcases h with h | h
  · right
    rw [List.filter_eq_nil_iff]
    intro a ha
    have := h8 a ha
    simp only [decide_eq_true_eq]
    omega
  · left
    rw [List.filter_eq_nil_iff]
    intro a ha
    have := h8 a ha
    simp only [decide_eq_true_eq]
    omega

/-- Helper: a `None` or `(0, 0)` window size makes the SCPS guard route
`WindowTooSmall` through `_handle_error`. -/
theorem scps_sizing_fails (ignErr binWs q : Bool) (shape : ℕ × ℕ) (s : ErrState)
    (hno : fft_window_size binWs q shape = none ∨ fft_window_size binWs q shape = some (0, 0)) :
    scps_sizing ignErr binWs q shape s =
      (if ignErr then
        Except.ok ({ s with tracked := s.tracked ++ [Err.windowTooSmall],
                            success := some false }, none)
      else
        Except.error ({ s with tracked := s.tracked ++ [Err.windowTooSmall],
                               success := some false }, Err.windowTooSmall)) := by
  simp only [scps_sizing]
  rw [if_pos hno]
  simp only [handle_error]
  cases ignErr <;> rfl

/-- C4 (counterexample): for the 4×4 shape the largest power of two at most 4
exists (it is 4, and `(4, 4)` is neither `(0, 0)` nor empty), yet the code's
binary sizing only considers powers from 8 to 8192 and returns `None`, which
the guard then turns into a `WindowTooSmall` failure — contradicting the
claim that each axis is shrunk to the largest power of two at most its
length. -/
theorem binary_sizing_counterexample :
    shrink_winsize_to_binarySize (4, 4) none = none ∧
    largestPow2Le 4 = 4 ∧ ((4 : ℕ), (4 : ℕ)) ≠ ((0 : ℕ), (0 : ℕ)) ∧
    scps_sizing false true true (4, 4) initState =
      Except.error (⟨[Err.windowTooSmall], some false, none, none⟩, Err.windowTooSmall) := by
  refine ⟨by decide, ?_, by decide, ?_⟩
  · show 2 ^ Nat.log2 4 = 4
    rw [show Nat.log2 4 = 2 by simp [Nat.log2]]
    rfl
  · rfl

/-- C4 (amended): with binary sizing enabled, when both axes are at least 8
each axis is shrunk to the largest power of two from the table
`[2^3 … 2^13]` that is at most its length (with forced quadratic windows
both axes then become the minimum of the two); when an axis is shorter
than 8 the sizing yields no window and the run fails with `WindowTooSmall`;
and a `None` or `(0, 0)` chosen size always fails with `WindowTooSmall`. -/
theorem binary_window_sizing (r c : ℕ) (q : Bool) :
    (8 ≤ r → 8 ≤ c →
      ∃ Y X, Y ∈ binarySizes ∧ Y ≤ r ∧ (∀ b ∈ binarySizes, b ≤ r → b ≤ Y) ∧
        X ∈ binarySizes ∧ X ≤ c ∧ (∀ b ∈ binarySizes, b ≤ c → b ≤ X) ∧
        fft_window_size true q (r, c) =
          some (if q then (min Y X, min Y X) else (Y, X))) ∧
    ((r < 8 ∨ c < 8) → ∀ (ignErr : Bool) (s : ErrState),
      fft_window_size true q (r, c) = none ∧
      scps_sizing ignErr true q (r, c) s =
        (if ignErr then
          Except.ok ({ s with tracked := s.tracked ++ [Err.windowTooSmall],
                              success := some false }, none)
        else
          Except.error ({ s with tracked := s.tracked ++ [Err.windowTooSmall],
                                 success := some false }, Err.windowTooSmall))) ∧
    (∀ (ignErr binWs : Bool) (shape : ℕ × ℕ) (s : ErrState),
      (fft_window_size binWs q shape = none ∨ fft_window_size binWs q shape = some (0, 0)) →
      scps_sizing ignErr binWs q shape s =
        (if ignErr then
          Except.ok ({ s with tracked := s.tracked ++ [Err.windowTooSmall],
                              success := some false }, none)
        else
          Except.error ({ s with tracked := s.tracked ++ [Err.windowTooSmall],
                                 success := some false }, Err.windowTooSmall))) := by
  refine ⟨?_, ?_, ?_⟩
  · intro hr hc
    have hrspec := list_max_filter_spec r hr
    have hcspec := list_max_filter_spec c hc
    refine ⟨list_max (binarySizes.filter (fun i => i ≤ r)),
      list_max (binarySizes.filter (fun i => i ≤ c)),
      hrspec.2.2.2, hrspec.2.1, hrspec.2.2.1,
      hcspec.2.2.2, hcspec.2.1, hcspec.2.2.1, ?_⟩
    simp only [fft_window_size, if_pos]
    rw [shrink_winsize_eq r c hr hc]
    cases q <;> rfl
  · intro h ignErr s
    have hnone : fft_window_size true q (r, c) = none := by
      simp only [fft_window_size, if_pos]
      rw [shrink_winsize_none r c h]
    exact ⟨hnone, scps_sizing_fails ignErr true q (r, c) s (Or.inl hnone)⟩
  · intro ignErr binWs shape s hno
    exact scps_sizing_fails ignErr binWs q shape s hno

/-- Witness for C4 (amended) at shapes 300×70 (sizes 256 and 64) and 4×16. -/
theorem binary_window_sizing_witness :
    (∃ Y X, Y ∈ binarySizes ∧ Y ≤ 300 ∧ (∀ b ∈ binarySizes, b ≤ 300 → b ≤ Y) ∧
      X ∈ binarySizes ∧ X ≤ 70 ∧ (∀ b ∈ binarySizes, b ≤ 70 → b ≤ X) ∧
      fft_window_size true true (300, 70) =
        some (if true then (min Y X, min Y X) else (Y, X))) ∧
    fft_window_size true true (300, 70) = some (64, 64) ∧
    fft_window_size true true (4, 16) = none := by
  refine ⟨(binary_window_sizing 300 70 true).1 (by norm_num) (by norm_num), by decide, ?_⟩
  exact (((binary_window_sizing 4 16 true).2.1 (Or.inl (by norm_num)) false initState)).1

/-- Helper: reading a mapped row profile with default 0 commutes with the row
read when the function sends the empty row to 0. -/
theorem map_getD_zero (f : List ℚ → ℚ) (hf : f [] = 0) :
    ∀ (m : Mat) (k : ℕ), (m.map f).getD k 0 = f (m.getD k []) := by
  intro m
  induction m with
  | nil =>
    intro k
    simp [List.getD_nil, hf]
  | cons row rest ih =>
    intro k
    cases k with
    | zero => simp [List.getD_cons_zero]
    | succ k =>
      simp only [List.map_cons, List.getD_cons_succ]
      exact ih k

/-- C5: on an SCPS with both dimensions at least 3, the sub-pixel shifts are
`sgn · v / (max(SCPS) + v)` per axis, where `v` is the larger of the two
immediate neighbors of the central peak `(rows/2, cols/2)` on its row
(respectively column) and `sgn` is −1 when the neighbor toward lower indices
is strictly larger, else +1. -/
theorem subpixel_formula (m : Mat) (hrect : m.Rect) (hr : 3 ≤ m.rows) (hc : 3 ≤ m.cols) :
    calc_subpixel_shifts m =
      (((if m.get (m.rows / 2) (m.cols / 2 - 1) > m.get (m.rows / 2) (m.cols / 2 + 1)
          then (-1 : ℚ) else 1) *
          max (m.get (m.rows / 2) (m.cols / 2 - 1)) (m.get (m.rows / 2) (m.cols / 2 + 1))) /
        (np_max m +
          max (m.get (m.rows / 2) (m.cols / 2 - 1)) (m.get (m.rows / 2) (m.cols / 2 + 1))),
       ((if m.get (m.rows / 2 - 1) (m.cols / 2) > m.get (m.rows / 2 + 1) (m.cols / 2)
          then (-1 : ℚ) else 1) *
          max (m.get (m.rows / 2 - 1) (m.cols / 2)) (m.get (m.rows / 2 + 1) (m.cols / 2))) /
        (np_max m +
          max (m.get (m.rows / 2 - 1) (m.cols / 2)) (m.get (m.rows / 2 + 1) (m.cols / 2)))) := by
  have hprof := map_getD_zero (fun row => row.getD (m.cols / 2) 0) (by simp [List.getD_nil]) m
  simp only [calc_subpixel_shifts, find_side_maximum, Mat.get, hprof]

/-- Witness for C5 on a concrete 3×3 SCPS. -/
theorem subpixel_formula_witness :
    calc_subpixel_shifts [[0, 1, 0], [2, 9, 3], [0, 4, 0]] = ((1 : ℚ)/4, 4/13) := by
  have h := subpixel_formula [[0, 1, 0], [2, 9, 3], [0, 4, 0]]
    (by decide) (by decide) (by decide)
  rw [h]
  norm_num [Mat.get, Mat.rows, Mat.cols, np_max, List.getD_cons_zero, List.getD_cons_succ]

/-- Helper: the code's if-chain clip equals `clip(x, 0, 100)`. -/
theorem clip_if_eq_max_min (x : ℝ) :
    (if x > 100 then (100 : ℝ) else if x < 0 then 0 else x) = max 0 (min 100 x) := by
  by_cases hgt : x > 100
  · rw [if_pos hgt, min_eq_left (le_of_lt hgt), max_eq_right (by norm_num : (0 : ℝ) ≤ 100)]
  · by_cases hlt : x < 0
    · rw [if_neg hgt, if_pos hlt, min_eq_right (by linarith : x ≤ 100),
        max_eq_left (le_of_lt hlt)]
    · rw [if_neg hgt, if_neg hlt, min_eq_right (by linarith : x ≤ 100),
        max_eq_right (by linarith : (0 : ℝ) ≤ x)]

/-- Helper: filtering the sentinel out of an overwritten row leaves exactly
the cells outside the column band, provided the row is nonnegative. -/
theorem filter_overwrite_row (pC : ℕ) :
    ∀ (row : List ℚ) (c : ℕ), (∀ x ∈ row, (0 : ℚ) ≤ x) →
      (overwrite_row pC c row).filter (fun x => x ≠ -9999) = spec_rest_row pC c row := by
  intro row
  induction row with
  | nil =>
    intro c _
    rfl
  | cons x xs ih =>
    intro c hall
    have hx : (0 : ℚ) ≤ x := hall x (List.mem_cons_self x xs)
    have hxs : ∀ z ∈ xs, (0 : ℚ) ≤ z := fun z hz => hall z (List.mem_cons_of_mem x hz)
    have hxne : x ≠ -9999 := by
      intro hEq
      rw [hEq] at hx
      norm_num at hx
    simp only [overwrite_row, spec_rest_row]
    by_cases hcond : pC - 1 ≤ c ∧ c ≤ pC + 1
    · rw [if_pos hcond, if_pos hcond, List.filter_cons, if_neg (by simp), List.nil_append]
      exact ih (c + 1) hxs
    · rw [if_neg hcond, if_neg hcond, List.filter_cons, if_pos (by simpa using hxne)]
      rw [ih (c + 1) hxs]
      rfl

/-- Helper: a nonnegative row survives the sentinel filter unchanged. -/
theorem filter_ne_sentinel (row : List ℚ) (hall : ∀ x ∈ row, (0 : ℚ) ≤ x) :
    row.filter (fun x => x ≠ -9999) = row := by
  rw [List.filter_eq_self]
  intro a ha
  have h0 := hall a ha
  simp only [ne_eq, decide_not, Bool.not_eq_true', decide_eq_false_iff_not]
  intro hEq
  rw [hEq] at h0
  norm_num at h0

/-- Helper: the masked cells after the in-place overwrite are exactly the
cells outside the 3×3 band, in row-major order, for nonnegative input. -/
theorem filter_overwrite_block (pR pC : ℕ) :
    ∀ (m : Mat) (r : ℕ), (∀ row ∈ m, ∀ x ∈ row, (0 : ℚ) ≤ x) →
      ((overwrite_block pR pC r m).flatten).filter (fun x => x ≠ -9999) =
        spec_rest pR pC r m := by
  intro m
  induction m with
  | nil =>
    intro r _
    rfl
  | cons row rest ih =>
    intro r hall
    have hrow := hall row (List.mem_cons_self row rest)
    have hrest : ∀ ro ∈ rest, ∀ x ∈ ro, (0 : ℚ) ≤ x :=
      fun ro hro => hall ro (List.mem_cons_of_mem row hro)
    simp only [overwrite_block, spec_rest, List.flatten_cons]
    rw [List.filter_append]
    by_cases hcond : pR - 1 ≤ r ∧ r ≤ pR + 1
    · rw [if_pos hcond, if_pos hcond, filter_overwrite_row pC row 0 hrow, ih (r + 1) hrest]
    · rw [if_neg hcond, if_neg hcond, filter_ne_sentinel row hrow, ih (r + 1) hrest]

/-- C6: for every SCPS with nonnegative entries (true of complex magnitudes)
and an interior peak, the computed reliability equals the spec formula
`clip(100 − 100·Q/P, 0, 100)` where `P` is the 3×3 block mean at the peak
and `Q = mean(rest) + 2·std(rest)` over all remaining cells. -/
theorem reliability_matches_spec (m : Mat) (hpos : m.Nonneg)
    (h1 : 1 ≤ (get_peakpos m).1) (h2 : (get_peakpos m).1 + 1 < m.rows)
    (h3 : 1 ≤ (get_peakpos m).2) (h4 : (get_peakpos m).2 + 1 < m.cols) :
    calc_shift_reliability m = reliability_spec m := by
  have hrest : masked_rest m = spec_rest (get_peakpos m).1 (get_peakpos m).2 0 m :=
    filter_overwrite_block (get_peakpos m).1 (get_peakpos m).2 m 0 hpos
  simp only [calc_shift_reliability, reliability_spec, power_without_peak, masked_rest] at *
  rw [hrest, clip_if_eq_max_min]
  congr 1
  congr 1
  ring

set_option maxRecDepth 8000 in
/-- Witness for C6 on a concrete 4×4 SCPS with peak at (1, 1). -/
theorem reliability_matches_spec_witness :
    calc_shift_reliability [[2, 2, 2, 1], [2, 9, 2, 1], [2, 2, 2, 1], [1, 1, 1, 1]] =
      reliability_spec [[2, 2, 2, 1], [2, 9, 2, 1], [2, 2, 2, 1], [1, 1, 1, 1]] := by
  apply reliability_matches_spec <;> decide

/-- Helper: membership of a `getD` read within bounds. -/
theorem getD_mem_of_lt {α : Type} (d : α) :
    ∀ (l : List α) (n : ℕ), n < l.length → l.getD n d ∈ l := by
  intro l
  induction l with
  | nil =>
    intro n hn
    simp at hn
  | cons x xs ih =>
    intro n hn
    cases n with
    | zero =>
      rw [List.getD_cons_zero]
      exact List.mem_cons_self x xs
    | succ n =>
      rw [List.getD_cons_succ]
      exact List.mem_cons_of_mem x (ih n (by simpa using hn))

/-- Helper: under rectangularity each in-range row has `cols` entries. -/
theorem rect_row_len (m : Mat) (hrect : m.Rect) (r : ℕ) (hr : r < m.rows) :
    (m.getD r []).length = m.cols :=
  hrect (m.getD r []) (getD_mem_of_lt [] m r hr)

/-- Helper: pointwise description of an overwritten row (interior band
semantics; `c0` is the running start index). -/
theorem overwrite_row_getD (pC : ℕ) :
    ∀ (row : List ℚ) (c0 c : ℕ), c < row.length →
      (overwrite_row pC c0 row).getD c 0 =
        (if pC - 1 ≤ c0 + c ∧ c0 + c ≤ pC + 1 then (-9999 : ℚ) else row.getD c 0) := by
  intro row
  induction row with
  | nil =>
    intro c0 c hc
    simp at hc
  | cons x xs ih =>
    intro c0 c hc
    cases c with
    | zero =>
      simp only [overwrite_row, List.getD_cons_zero, Nat.add_zero]
    | succ c =>
      simp only [overwrite_row, List.getD_cons_succ]
      rw [ih (c0 + 1) c (by simpa using hc)]
      have heq : c0 + 1 + c = c0 + (c + 1) := by omega
      rw [heq]

/-- Helper: pointwise description of the overwritten block (`r0` is the
running start row index). -/
theorem overwrite_block_getD (pR pC : ℕ) :
    ∀ (m : Mat) (r0 r c : ℕ), r < m.length → c < (m.getD r []).length →
      ((overwrite_block pR pC r0 m).getD r []).getD c 0 =
        (if (pR - 1 ≤ r0 + r ∧ r0 + r ≤ pR + 1) ∧ pC - 1 ≤ c ∧ c ≤ pC + 1
         then (-9999 : ℚ) else (m.getD r []).getD c 0) := by
  intro m
  induction m with
  | nil =>
    intro r0 r c hr _
    simp at hr
  | cons row rest ih =>
    intro r0 r c hr hc
    cases r with
    | zero =>
      have hc2 : c < row.length := by simpa using hc
      simp only [overwrite_block, List.getD_cons_zero, Nat.add_zero]
      by_cases hrow : pR - 1 ≤ r0 ∧ r0 ≤ pR + 1
      · rw [if_pos hrow, overwrite_row_getD pC row 0 c hc2]
        simp only [Nat.zero_add]
        by_cases hcol : pC - 1 ≤ c ∧ c ≤ pC + 1
        · rw [if_pos hcol, if_pos ⟨hrow, hcol⟩]
        · rw [if_neg hcol, if_neg (fun h => hcol h.2)]
      · rw [if_neg hrow, if_neg (fun h => hrow h.1)]
    | succ r =>
      simp only [overwrite_block, List.getD_cons_succ]
      rw [ih (r0 + 1) r c (by simpa using hr) (by simpa using hc)]
      have heq : r0 + 1 + r = r0 + (r + 1) := by omega
      rw [heq]

/-- C9: `_calc_shift_reliability` mutates its input: after the call (modelled
by `scps_after_reliability`, since `scps_masked = scps` merely aliases the
numpy array) the 3×3 block centered at the peak holds −9999, every cell
outside the block is unchanged, and the array therefore differs from the
original SCPS. -/
theorem reliability_mutates_scps (m : Mat) (hrect : m.Rect) (hpos : m.Nonneg)
    (h1 : 1 ≤ (get_peakpos m).1) (h2 : (get_peakpos m).1 + 1 < m.rows)
    (h3 : 1 ≤ (get_peakpos m).2) (h4 : (get_peakpos m).2 + 1 < m.cols) :
    (∀ r c, r < m.rows → c < m.cols →
      (scps_after_reliability m).get r c =
        (if ((get_peakpos m).1 - 1 ≤ r ∧ r ≤ (get_peakpos m).1 + 1) ∧
            (get_peakpos m).2 - 1 ≤ c ∧ c ≤ (get_peakpos m).2 + 1
         then (-9999 : ℚ) else m.get r c)) ∧
    scps_after_reliability m ≠ m := by
  have hget : ∀ r c, r < m.rows → c < m.cols →
      (scps_after_reliability m).get r c =
        (if ((get_peakpos m).1 - 1 ≤ r ∧ r ≤ (get_peakpos m).1 + 1) ∧
            (get_peakpos m).2 - 1 ≤ c ∧ c ≤ (get_peakpos m).2 + 1
         then (-9999 : ℚ) else m.get r c) := by
    intro r c hr hc
    have hc2 : c < (m.getD r []).length := by
      rw [rect_row_len m hrect r hr]
      exact hc
    have hpt := overwrite_block_getD (get_peakpos m).1 (get_peakpos m).2 m 0 r c hr hc2
    simpa [scps_after_reliability, Mat.get, Nat.zero_add] using hpt
  refine ⟨hget, ?_⟩
  intro hEqM
  have hPk := hget (get_peakpos m).1 (get_peakpos m).2 (by omega) (by omega)
  rw [if_pos ⟨⟨by omega, by omega⟩, by omega, by omega⟩, hEqM] at hPk
  have hmem : m.getD (get_peakpos m).1 [] ∈ m :=
    getD_mem_of_lt [] m _ (show (get_peakpos m).1 < m.rows by omega)
  have hxmem : (m.getD (get_peakpos m).1 []).getD (get_peakpos m).2 0 ∈
      m.getD (get_peakpos m).1 [] := by
    apply getD_mem_of_lt
    rw [rect_row_len m hrect _ (by omega)]
    omega
  have hx0 := hpos _ hmem _ hxmem
  rw [show (m.getD (get_peakpos m).1 []).getD (get_peakpos m).2 0 =
      m.get (get_peakpos m).1 (get_peakpos m).2 from rfl, hPk] at hx0
  norm_num at hx0

set_option maxRecDepth 8000 in
/-- Witness for C9 on the concrete 4×4 SCPS: the peak block cell (1, 1) is
overwritten with −9999, the outside cell (0, 3) is unchanged, and the array
differs from the input. -/
theorem reliability_mutates_scps_witness :
    (scps_after_reliability [[2, 2, 2, 1], [2, 9, 2, 1], [2, 2, 2, 1], [1, 1, 1, 1]]).get 1 1 =
      -9999 ∧
    (scps_after_reliability [[2, 2, 2, 1], [2, 9, 2, 1], [2, 2, 2, 1], [1, 1, 1, 1]]).get 0 3 =
      Mat.get [[2, 2, 2, 1], [2, 9, 2, 1], [2, 2, 2, 1], [1, 1, 1, 1]] 0 3 ∧
    scps_after_reliability [[2, 2, 2, 1], [2, 9, 2, 1], [2, 2, 2, 1], [1, 1, 1, 1]] ≠
      [[2, 2, 2, 1], [2, 9, 2, 1], [2, 2, 2, 1], [1, 1, 1, 1]] := by
  have h := reliability_mutates_scps [[2, 2, 2, 1], [2, 9, 2, 1], [2, 2, 2, 1], [1, 1, 1, 1]]
    (by decide) (by decide) (by decide) (by decide) (by decide) (by decide)
  have hpk : get_peakpos [[2, 2, 2, 1], [2, 9, 2, 1], [2, 2, 2, 1], [1, 1, 1, 1]] = (1, 1) := by
    decide
  refine ⟨?_, ?_, h.2⟩
  · have h11 := h.1 1 1 (by decide) (by decide)
    rw [hpk] at h11
    simpa using h11
  · have h03 := h.1 0 3 (by decide) (by decide)
    rw [hpk] at h03
    simpa using h03

/-- C10: `_get_inverted_coreg_info` copies `coreg_info` only shallowly, so
negating the nested shift dictionaries in place also rewrites the cached
dictionary: reading `corrected_shifts_px` / `corrected_shifts_map` through
the cache after one call yields the sign-flipped shifts (the inverted dict
shares the nested addresses with the cache, whose top-level entries alone
are rebound). -/
theorem inverted_coreg_info_mutates_cache (cache : CoregInfoDict) (h : Heap)
    (xShiftMap yShiftMap : ℚ) (refMapInfo : ℚ × ℚ)
    (haddr : cache.pxAddr ≠ cache.mapAddr) :
    read_corrected_shifts cache (get_inverted_coreg_info cache h xShiftMap yShiftMap refMapInfo).2 =
      (⟨-(h cache.pxAddr).x, -(h cache.pxAddr).y⟩,
       ⟨-(h cache.mapAddr).x, -(h cache.mapAddr).y⟩) ∧
    (get_inverted_coreg_info cache h xShiftMap yShiftMap refMapInfo).1.pxAddr = cache.pxAddr ∧
    (get_inverted_coreg_info cache h xShiftMap yShiftMap refMapInfo).1.mapAddr = cache.mapAddr := by
  refine ⟨?_, ?_, ?_⟩
  · simp [get_inverted_coreg_info, shallow_copy, heap_update, read_corrected_shifts,
      haddr, Ne.symm haddr]
  · simp only [get_inverted_coreg_info, shallow_copy]
    by_cases hupd : cache.updatedMapInfo.isSome <;> simp [hupd]
  · simp only [get_inverted_coreg_info, shallow_copy]
    by_cases hupd : cache.updatedMapInfo.isSome <;> simp [hupd]

/-- Witness for C10 with shifts (3, −2) px and (30, −20) map units: after one
inversion call the cache reads back the negated values. -/
theorem inverted_coreg_info_mutates_cache_witness :
    read_corrected_shifts ⟨0, 1, (100, 200), some (103, 198)⟩
      (get_inverted_coreg_info ⟨0, 1, (100, 200), some (103, 198)⟩
        (fun n => if n = 0 then ⟨3, -2⟩ else ⟨30, -20⟩) 30 (-20) (50, 60)).2 =
      (⟨-3, 2⟩, ⟨-30, 20⟩) := by
  have h := inverted_coreg_info_mutates_cache ⟨0, 1, (100, 200), some (103, 198)⟩
    (fun n => if n = 0 then ⟨3, -2⟩ else ⟨30, -20⟩) 30 (-20) (50, 60) (by decide)
  rw [h.1]
  norm_num
